import Mathlib

/-!
Verification of the penguin-health document pipeline.

This file gives a shallow embedding, in Lean 4, of the text-processing core
of the repository: encounter segmentation
(`split_into_encounters_text_based` in
`textract_result_handler_multi_org.py`), field extraction, the rule
evaluation engine with its summary, JSON recovery from model responses,
the retry loop of the model-invocation client
(`rules_engine_rag.py`), the OCR line normalizer, and the CSV report
generator.  Python strings are modelled as `List Char` (or `String` where
only whole-string operations occur), dictionaries as association lists,
machine integers as `Nat`, and floating point positions (used only for
comparisons, never arithmetic) as `ℚ`.  Each theorem states one claim
about the code and is proved against these definitions.
-/

namespace PenguinHealth

/-! ## Python string primitives on `List Char` -/

/-- Model of `str.split('\n')`: splits at every newline, keeping empty
pieces; the empty string yields one empty line, as in Python. -/
def splitLines : List Char → List (List Char)
  | [] => [[]]
  | c :: cs =>
    if c = '\n' then [] :: splitLines cs
    else
      match splitLines cs with
      | [] => [[c]]
      | l :: ls => (c :: l) :: ls

/-- Model of `'\n'.join(...)`. -/
def joinLines : List (List Char) → List Char
  | [] => []
  | [l] => l
  | l :: ls => l ++ '\n' :: joinLines ls

/-- Model of the Python substring test `pat in s`. -/
def containsSub (pat : List Char) : List Char → Bool
  | [] => pat.isPrefixOf []
  | c :: cs => pat.isPrefixOf (c :: cs) || containsSub pat cs

/-- Model of `s.split(pat, 1)[1]`: the remainder after the first
occurrence of `pat` (`none` when `pat` does not occur).  Faithful for
non-empty `pat`; Python raises `ValueError` on an empty separator, so
theorems below assume the separator is non-empty. -/
def splitOnceAfter (pat : List Char) : List Char → Option (List Char)
  | [] => none
  | c :: cs =>
    if pat.isPrefixOf (c :: cs) then some ((c :: cs).drop pat.length)
    else splitOnceAfter pat cs

/-- The six ASCII whitespace characters stripped by Python `str.strip()`
(unicode whitespace is not modelled; OCR text here is ASCII). -/
def pyIsSpace (c : Char) : Bool :=
  c = ' ' || c = '\t' || c = '\n' || c = '\x0b' || c = '\x0c' || c = '\r'

/-- Model of `str.strip()`. -/
def pyStrip (l : List Char) : List Char :=
  ((l.dropWhile pyIsSpace).reverse.dropWhile pyIsSpace).reverse

/-! ### Facts about `splitLines` and `joinLines` -/

theorem splitLines_ne_nil (t : List Char) : splitLines t ≠ [] := by
  induction t with
  | nil => simp [splitLines]
  | cons c cs ih =>
    simp only [splitLines]
    split
    · simp
    · cases h : splitLines cs with
      | nil => simp
      | cons l ls => simp

theorem joinLines_cons_of_ne (l : List Char) (ls : List (List Char))
    (h : ls ≠ []) : joinLines (l :: ls) = l ++ '\n' :: joinLines ls := by
  cases ls with
  | nil => exact absurd rfl h
  | cons a as => rfl

theorem joinLines_append (A B : List (List Char)) (hA : A ≠ []) (hB : B ≠ []) :
    joinLines (A ++ B) = joinLines A ++ '\n' :: joinLines B := by
  induction A with
  | nil => exact absurd rfl hA
  | cons a as ih =>
    cases as with
    | nil =>
      simp only [List.cons_append, List.nil_append]
      rw [joinLines_cons_of_ne a B hB]
      rfl
    | cons b bs =>
      have hne : (b :: bs) ++ B ≠ [] := by simp
      rw [List.cons_append, joinLines_cons_of_ne a ((b :: bs) ++ B) hne,
        joinLines_cons_of_ne a (b :: bs) (by simp), ih (by simp)]
      simp

theorem mem_splitLines_no_newline (t : List Char) :
    ∀ l ∈ splitLines t, '\n' ∉ l := by
  induction t with
  | nil =>
    intro l hl
    simp [splitLines] at hl
    simp [hl]
  | cons c cs ih =>
    intro l hl
    simp only [splitLines] at hl
    by_cases hc : c = '\n'
    · simp [hc] at hl
      rcases hl with h | h
      · simp [h]
      · exact ih l h
    · simp [hc] at hl
      rcases h : splitLines cs with _ | ⟨m, ms⟩
      · exact absurd h (splitLines_ne_nil cs)
      · rw [h] at hl
        simp at hl
        rcases hl with h1 | h2
        · subst h1
          intro hmem
          rcases List.mem_cons.mp hmem with h' | h'
          · exact hc h'.symm
          · exact ih m (by simp [h]) h'
        · exact ih l (by simp [h, h2])

theorem splitLines_append_newline (line rest : List Char) (h : '\n' ∉ line) :
    splitLines (line ++ '\n' :: rest) = line :: splitLines rest := by
  induction line with
  | nil => simp [splitLines]
  | cons c cs ih =>
    have hc : c ≠ '\n' := fun hh => h (hh ▸ List.mem_cons_self c cs)
    have hcs : '\n' ∉ cs := fun hh => h (List.mem_cons_of_mem c hh)
    simp only [List.cons_append, splitLines, hc, if_false, List.append_eq]
    rw [ih hcs]

theorem splitLines_of_no_newline (line : List Char) (h : '\n' ∉ line) :
    splitLines line = [line] := by
  induction line with
  | nil => rfl
  | cons c cs ih =>
    have hc : c ≠ '\n' := fun hh => h (hh ▸ List.mem_cons_self c cs)
    have hcs : '\n' ∉ cs := fun hh => h (List.mem_cons_of_mem c hh)
    simp only [splitLines, hc, if_false]
    rw [ih hcs]

theorem splitLines_joinLines (ls : List (List Char)) (hne : ls ≠ [])
    (h : ∀ l ∈ ls, '\n' ∉ l) : splitLines (joinLines ls) = ls := by
  induction ls with
  | nil => exact absurd rfl hne
  | cons a as ih =>
    cases as with
    | nil => exact splitLines_of_no_newline a (h a (by simp))
    | cons b bs =>
      rw [joinLines_cons_of_ne a (b :: bs) (by simp),
        splitLines_append_newline a (joinLines (b :: bs)) (h a (by simp)),
        ih (by simp) (fun l hl => h l (List.mem_cons_of_mem a hl))]

/-! ## Encounter segmentation
(`split_into_encounters_text_based` in `textract_result_handler_multi_org.py`) -/

/-- One encounter produced by the segmenter.  `startLine`/`endLine` are the
`start_line`/`end_line` metadata of the source (for the unsplit single
encounter, where the source records no line range, they are set to the full
range of the content lines). -/
structure Encounter where
  text : List Char
  startLine : Nat
  endLine : Nat
  isSplitEncounter : Bool
  deriving DecidableEq, Repr

/-- Indices of the lines containing the delimiter, as in
`[idx for idx, line in enumerate(lines) if delimiter_field in line]`. -/
def delimIndices (delim : List Char) (ls : List (List Char)) : List Nat :=
  (List.range ls.length).filter (fun i => containsSub delim (ls.getD i []))

/-- The encounter-carving loop: for each delimiter index, the encounter
spans the content lines from that index up to the next delimiter index
(or to the end of the content for the last one), its text being the
newline-join of that slice (`content_lines[start_idx:end_idx]`). -/
def carveEncounters (contentLines : List (List Char)) (idxs : List Nat) :
    List Encounter :=
  (List.range idxs.length).map fun i =>
    let s := idxs.getD i 0
    let e := if i + 1 < idxs.length then idxs.getD (i + 1) 0
             else contentLines.length
    { text := joinLines ((contentLines.drop s).take (e - s)),
      startLine := s, endLine := e, isSplitEncounter := true }

/-- `split_into_encounters_text_based`: delimiters are located in the
line-block transcript purely as a diagnostic; the forms transcript, when
non-empty, is authoritative both for delimiter positions and for content;
with at most one delimiter the whole content is one encounter. -/
def splitIntoEncountersTextBased (linesText formsText delim : List Char) :
    List Encounter :=
  let lineTextLines := splitLines linesText
  let lineDelimIdx := delimIndices delim lineTextLines
  let contentText := if formsText ≠ [] then formsText else linesText
  let contentLines := splitLines contentText
  let delimIdx :=
    if formsText ≠ [] then delimIndices delim contentLines else lineDelimIdx
  if delimIdx.length ≤ 1 then
    [{ text := contentText, startLine := 0, endLine := contentLines.length,
       isSplitEncounter := false }]
  else carveEncounters contentLines delimIdx

/-- The transcript the splitter actually carves: the forms text when
non-empty, otherwise the line text (the "authoritative transcript"). -/
def authContent (linesText formsText : List Char) : List Char :=
  if formsText ≠ [] then formsText else linesText

/-- The content lines of the authoritative transcript. -/
def authLines (linesText formsText : List Char) : List (List Char) :=
  splitLines (authContent linesText formsText)

/-- Number of content lines containing the delimiter (the `k` of the
segmentation claims). -/
def delimLineCount (linesText formsText delim : List Char) : Nat :=
  (authLines linesText formsText).countP (fun l => containsSub delim l)

/-! ### Facts about `delimIndices` -/

theorem delimIndices_sorted (delim : List Char) (ls : List (List Char)) :
    (delimIndices delim ls).Pairwise (· < ·) :=
  List.Pairwise.filter _ (List.pairwise_lt_range _)

theorem mem_delimIndices {delim : List Char} {ls : List (List Char)} {i : Nat} :
    i ∈ delimIndices delim ls ↔
      i < ls.length ∧ containsSub delim (ls.getD i []) = true := by
  simp [delimIndices, List.mem_filter, List.mem_range]

theorem length_delimIndices (delim : List Char) (ls : List (List Char)) :
    (delimIndices delim ls).length = ls.countP (fun l => containsSub delim l) := by
  induction ls with
  | nil => rfl
  | cons a tl ih =>
    unfold delimIndices at *
    rw [List.length_cons, List.range_succ_eq_map, List.filter_cons,
      List.filter_map, List.countP_cons]
    simp only [Function.comp_def, List.getD_cons_succ, List.getD_cons_zero,
      List.length_map]
    simp only [List.getD_eq_getElem?_getD] at ih
    by_cases h : containsSub delim a = true
    · simp [h, ih]
    · simp [h, ih]

theorem headD_le_of_mem {l : List Nat} (hs : l.Pairwise (· < ·)) {x : Nat}
    (hx : x ∈ l) : l.headD 0 ≤ x := by
  cases l with
  | nil => cases hx
  | cons a tl =>
    rcases List.mem_cons.mp hx with h | h
    · simp [h]
    · exact Nat.le_of_lt ((List.pairwise_cons.mp hs).1 x h)

/-! ### Facts about `carveEncounters` -/

theorem length_carveEncounters (ls : List (List Char)) (idxs : List Nat) :
    (carveEncounters ls idxs).length = idxs.length := by
  simp [carveEncounters]

theorem carveEncounters_single (ls : List (List Char)) (s : Nat) :
    carveEncounters ls [s] =
      [{ text := joinLines (ls.drop s), startLine := s, endLine := ls.length,
         isSplitEncounter := true }] := by
  have h : carveEncounters ls [s] =
      [{ text := joinLines ((ls.drop s).take (ls.length - s)), startLine := s,
         endLine := ls.length, isSplitEncounter := true }] := rfl
  rw [h, List.take_of_length_le (by rw [List.length_drop])]

theorem carveEncounters_cons (ls : List (List Char)) (s t : Nat)
    (rest : List Nat) :
    carveEncounters ls (s :: t :: rest) =
      { text := joinLines ((ls.drop s).take (t - s)), startLine := s,
        endLine := t, isSplitEncounter := true } ::
        carveEncounters ls (t :: rest) := by
  unfold carveEncounters
  rw [show (s :: t :: rest).length = (t :: rest).length + 1 from rfl,
    List.range_succ_eq_map, List.map_cons, List.map_map]
  refine congrArg₂ List.cons ?_ ?_
  · have h1 : 0 + 1 < (t :: rest).length + 1 := by simp
    simp [h1]
  · refine List.map_congr_left fun i hi => ?_
    have hiff : (i + 1 + 1 < (t :: rest).length + 1) ↔
        (i + 1 < (t :: rest).length) := by omega
    simp only [Function.comp_apply, List.getD_cons_succ]
    rw [if_congr hiff rfl rfl]

theorem carve_mem (ls : List (List Char)) (idxs : List Nat) {e : Encounter}
    (he : e ∈ carveEncounters ls idxs) :
    ∃ i, i < idxs.length ∧ e.startLine = idxs.getD i 0 ∧
      e.endLine =
        (if i + 1 < idxs.length then idxs.getD (i + 1) 0 else ls.length) ∧
      e.text =
        joinLines ((ls.drop e.startLine).take (e.endLine - e.startLine)) := by
  unfold carveEncounters at he
  rcases List.mem_map.mp he with ⟨i, hi, rfl⟩
  exact ⟨i, List.mem_range.mp hi, rfl, rfl, rfl⟩

theorem carve_reconstruct (ls : List (List Char)) :
    ∀ idxs : List Nat, idxs ≠ [] → idxs.Pairwise (· < ·) →
      (∀ i ∈ idxs, i < ls.length) →
      joinLines ((carveEncounters ls idxs).map fun e => e.text) =
        joinLines (ls.drop (idxs.headD 0))
  | [], hne, _, _ => absurd rfl hne
  | [s], _, _, _ => by rw [carveEncounters_single]; rfl
  | s :: t :: rest, _, hp, hb => by
    have hst : s < t := (List.pairwise_cons.mp hp).1 t (by simp)
    have hb' : ∀ i ∈ t :: rest, i < ls.length := fun i hi =>
      hb i (List.mem_cons_of_mem s hi)
    have ht : t < ls.length := hb' t (by simp)
    have ihr := carve_reconstruct ls (t :: rest) (by simp)
      (List.pairwise_cons.mp hp).2 hb'
    rw [carveEncounters_cons, List.map_cons]
    have hnem : (carveEncounters ls (t :: rest)).map (fun e => e.text) ≠ [] := by
      simp [carveEncounters]
    rw [joinLines_cons_of_ne _ _ hnem, ihr]
    have hA : (ls.drop s).take (t - s) ≠ [] := by
      have hlen : ((ls.drop s).take (t - s)).length =
          min (t - s) (ls.length - s) := by
        simp [List.length_take, List.length_drop]
      intro hcon
      rw [hcon] at hlen
      simp only [List.length_nil] at hlen
      omega
    have hB : ls.drop t ≠ [] := by
      intro hcon
      have := List.drop_eq_nil_iff.mp hcon
      omega
    show joinLines ((ls.drop s).take (t - s)) ++ '\n' :: joinLines (ls.drop t) =
      joinLines (ls.drop s)
    have hsplit : ls.drop s = (ls.drop s).take (t - s) ++ ls.drop t := by
      conv_lhs => rw [← List.take_append_drop (t - s) (ls.drop s)]
      rw [List.drop_drop, show s + (t - s) = t by omega]
    rw [← joinLines_append _ _ hA hB, ← hsplit]

theorem carve_pairwise (ls : List (List Char)) (idxs : List Nat)
    (hp : idxs.Pairwise (· < ·)) :
    (carveEncounters ls idxs).Pairwise fun a b => a.endLine ≤ b.startLine := by
  unfold carveEncounters
  rw [List.pairwise_map, List.pairwise_iff_getElem]
  intro i j hi hj hij
  simp only [List.length_range] at hi hj
  simp only [List.getElem_range]
  have hij1 : i + 1 < idxs.length := by omega
  simp only [hij1, if_true]
  have hgp := List.pairwise_iff_getElem.mp hp
  rw [List.getD_eq_getElem idxs 0 hij1, List.getD_eq_getElem idxs 0 hj]
  rcases Nat.lt_or_ge (i + 1) j with h | h
  · exact Nat.le_of_lt (hgp _ _ hij1 hj h)
  · have : i + 1 = j := by omega
    subst this
    rfl

theorem headD_eq_getD {α : Type} (l : List α) (d : α) :
    l.headD d = l.getD 0 d := by cases l <;> rfl

theorem carve_first_line (ls : List (List Char)) (idxs : List Nat)
    (hp : idxs.Pairwise (· < ·)) (hb : ∀ i ∈ idxs, i < ls.length)
    (hnl : ∀ l ∈ ls, '\n' ∉ l) :
    ∀ e ∈ carveEncounters ls idxs,
      (splitLines e.text).headD [] = ls.getD e.startLine [] := by
  intro e he
  rcases carve_mem ls idxs he with ⟨i, hi, hs, hee, ht⟩
  have hsmem : e.startLine ∈ idxs := by
    rw [hs, List.getD_eq_getElem idxs 0 hi]
    exact List.getElem_mem hi
  have hslt : e.startLine < ls.length := hb _ hsmem
  have hse : e.startLine < e.endLine := by
    rcases Nat.lt_or_ge (i + 1) idxs.length with h | h
    · rw [hee, if_pos h, hs]
      rw [List.getD_eq_getElem idxs 0 hi, List.getD_eq_getElem idxs 0 h]
      exact List.pairwise_iff_getElem.mp hp _ _ hi h (by omega)
    · rw [hee, if_neg (by omega)]
      exact hslt
  have hlen : ((ls.drop e.startLine).take (e.endLine - e.startLine)).length =
      min (e.endLine - e.startLine) (ls.length - e.startLine) := by
    simp [List.length_take, List.length_drop]
  have hslne : (ls.drop e.startLine).take (e.endLine - e.startLine) ≠ [] := by
    intro hcon
    rw [hcon] at hlen
    simp only [List.length_nil] at hlen
    omega
  have hmem : ∀ l ∈ (ls.drop e.startLine).take (e.endLine - e.startLine),
      '\n' ∉ l := fun l hl =>
    hnl l ((ls.drop_sublist e.startLine).subset
      ((List.take_sublist _ _).subset hl))
  rw [ht, splitLines_joinLines _ hslne hmem, headD_eq_getD]
  have h0 : 0 < ((ls.drop e.startLine).take (e.endLine - e.startLine)).length := by
    rw [hlen]; omega
  rw [List.getD_eq_getElem _ [] h0, List.getElem_take, List.getElem_drop,
    List.getD_eq_getElem ls [] (by omega)]
  simp

theorem splitInto_eq (lt ft d : List Char) :
    splitIntoEncountersTextBased lt ft d =
      if (delimIndices d (authLines lt ft)).length ≤ 1 then
        [{ text := authContent lt ft, startLine := 0,
           endLine := (authLines lt ft).length, isSplitEncounter := false }]
      else carveEncounters (authLines lt ft) (delimIndices d (authLines lt ft)) := by
  unfold splitIntoEncountersTextBased authLines authContent
  by_cases h : ft = []
  · simp [h]
  · simp [h]

/-- C1, counterexample.  Transcript with a content line before the first
delimiter line: `junk` / `ID: 1` / `x` / `ID: 2` / `y`, delimiter `ID:`.
There are exactly 2 delimiter lines and 2 encounters come back, but their
texts concatenated in order (with or without the newline separators) omit
the leading `junk` line and so do not reconstruct the transcript. -/
theorem encounters_do_not_always_reconstruct_transcript :
    delimLineCount (("junk\nID: 1\nx\nID: 2\ny").toList)
        (("junk\nID: 1\nx\nID: 2\ny").toList) (("ID:").toList) = 2 ∧
    (splitIntoEncountersTextBased (("junk\nID: 1\nx\nID: 2\ny").toList)
        (("junk\nID: 1\nx\nID: 2\ny").toList) (("ID:").toList)).length = 2 ∧
    joinLines ((splitIntoEncountersTextBased (("junk\nID: 1\nx\nID: 2\ny").toList)
        (("junk\nID: 1\nx\nID: 2\ny").toList) (("ID:").toList)).map
          fun e => e.text) ≠
      authContent (("junk\nID: 1\nx\nID: 2\ny").toList)
        (("junk\nID: 1\nx\nID: 2\ny").toList) ∧
    ((splitIntoEncountersTextBased (("junk\nID: 1\nx\nID: 2\ny").toList)
        (("junk\nID: 1\nx\nID: 2\ny").toList) (("ID:").toList)).map
          fun e => e.text).flatten ≠
      authContent (("junk\nID: 1\nx\nID: 2\ny").toList)
        (("junk\nID: 1\nx\nID: 2\ny").toList) := by
  refine ⟨by decide, by decide, by decide, by decide⟩

/-- C1, amended.  For a document whose authoritative transcript has `k`
delimiter-containing lines: with `k ≤ 1` exactly one encounter covering
the whole content is returned; with `k ≥ 2` exactly `k` pairwise
non-overlapping encounters are returned whose texts, concatenated in
order, reconstruct the transcript from the first delimiter-containing
line onward (content before the first delimiter line is dropped). -/
theorem split_into_encounters_spec (lt ft d : List Char) :
    (delimLineCount lt ft d ≤ 1 →
      splitIntoEncountersTextBased lt ft d =
        [{ text := authContent lt ft, startLine := 0,
           endLine := (authLines lt ft).length, isSplitEncounter := false }]) ∧
    (2 ≤ delimLineCount lt ft d →
      (splitIntoEncountersTextBased lt ft d).length = delimLineCount lt ft d ∧
      (splitIntoEncountersTextBased lt ft d).Pairwise
        (fun a b => a.endLine ≤ b.startLine) ∧
      joinLines ((splitIntoEncountersTextBased lt ft d).map fun e => e.text) =
        joinLines ((authLines lt ft).drop
          ((delimIndices d (authLines lt ft)).headD 0))) := by
  have hlen : (delimIndices d (authLines lt ft)).length = delimLineCount lt ft d :=
    length_delimIndices d (authLines lt ft)
  constructor
  · intro hk
    rw [splitInto_eq, if_pos (by omega)]
  · intro hk
    have hgt : ¬ (delimIndices d (authLines lt ft)).length ≤ 1 := by omega
    rw [splitInto_eq, if_neg hgt]
    have hne : delimIndices d (authLines lt ft) ≠ [] := by
      intro hcon
      rw [hcon] at hlen
      simp only [List.length_nil] at hlen
      omega
    have hsorted := delimIndices_sorted d (authLines lt ft)
    have hbound : ∀ i ∈ delimIndices d (authLines lt ft),
        i < (authLines lt ft).length := fun i hi => (mem_delimIndices.mp hi).1
    exact ⟨by rw [length_carveEncounters, hlen],
      carve_pairwise _ _ hsorted,
      carve_reconstruct _ _ hne hsorted hbound⟩

/-- Witness for the amended C1 at concrete inputs: a clean two-delimiter
transcript and a zero-delimiter transcript. -/
theorem split_into_encounters_spec_witness :
    (splitIntoEncountersTextBased (("hello\nworld").toList)
        (("hello\nworld").toList) (("ID:").toList) =
      [{ text := ("hello\nworld").toList, startLine := 0, endLine := 2,
         isSplitEncounter := false }]) ∧
    ((splitIntoEncountersTextBased (("ID: 1\nx\nID: 2\ny").toList)
        (("ID: 1\nx\nID: 2\ny").toList) (("ID:").toList)).length =
        delimLineCount (("ID: 1\nx\nID: 2\ny").toList)
          (("ID: 1\nx\nID: 2\ny").toList) (("ID:").toList) ∧
      (splitIntoEncountersTextBased (("ID: 1\nx\nID: 2\ny").toList)
        (("ID: 1\nx\nID: 2\ny").toList) (("ID:").toList)).Pairwise
          (fun a b => a.endLine ≤ b.startLine) ∧
      joinLines ((splitIntoEncountersTextBased (("ID: 1\nx\nID: 2\ny").toList)
        (("ID: 1\nx\nID: 2\ny").toList) (("ID:").toList)).map
          fun e => e.text) =
        joinLines ((authLines (("ID: 1\nx\nID: 2\ny").toList)
            (("ID: 1\nx\nID: 2\ny").toList)).drop
          ((delimIndices (("ID:").toList)
            (authLines (("ID: 1\nx\nID: 2\ny").toList)
              (("ID: 1\nx\nID: 2\ny").toList))).headD 0))) :=
  ⟨by
    have h := (split_into_encounters_spec (("hello\nworld").toList)
      (("hello\nworld").toList) (("ID:").toList)).1 (by decide)
    rw [h]
    decide,
   (split_into_encounters_spec (("ID: 1\nx\nID: 2\ny").toList)
     (("ID: 1\nx\nID: 2\ny").toList) (("ID:").toList)).2 (by decide)⟩

/-- C10: in the split case every encounter opens with a delimiter line and
nothing before the first delimiter line is covered.  Precisely: with `k ≥ 2`
delimiter-containing lines, every returned encounter text starts with a line
containing the delimiter, every encounter covers the authoritative content
line range `[startLine, endLine)` with `startLine` at or after the first
delimiter line, and the concatenated texts equal the transcript from the
first delimiter line on — so the lines before it appear in no encounter. -/
theorem leading_content_dropped (lt ft d : List Char)
    (hk : 2 ≤ delimLineCount lt ft d) :
    (∀ e ∈ splitIntoEncountersTextBased lt ft d,
      containsSub d ((splitLines e.text).headD []) = true) ∧
    (∀ e ∈ splitIntoEncountersTextBased lt ft d,
      (delimIndices d (authLines lt ft)).headD 0 ≤ e.startLine ∧
      e.text = joinLines (((authLines lt ft).drop e.startLine).take
        (e.endLine - e.startLine))) ∧
    joinLines ((splitIntoEncountersTextBased lt ft d).map fun e => e.text) =
      joinLines ((authLines lt ft).drop
        ((delimIndices d (authLines lt ft)).headD 0)) := by
  have hlen : (delimIndices d (authLines lt ft)).length = delimLineCount lt ft d :=
    length_delimIndices d (authLines lt ft)
  have hgt : ¬ (delimIndices d (authLines lt ft)).length ≤ 1 := by omega
  have hsorted := delimIndices_sorted d (authLines lt ft)
  have hbound : ∀ i ∈ delimIndices d (authLines lt ft),
      i < (authLines lt ft).length := fun i hi => (mem_delimIndices.mp hi).1
  have hne : delimIndices d (authLines lt ft) ≠ [] := by
    intro hcon
    rw [hcon] at hlen
    simp only [List.length_nil] at hlen
    omega
  have hnl : ∀ l ∈ authLines lt ft, '\n' ∉ l :=
    mem_splitLines_no_newline (authContent lt ft)
  have hsplit : splitIntoEncountersTextBased lt ft d =
      carveEncounters (authLines lt ft) (delimIndices d (authLines lt ft)) := by
    rw [splitInto_eq, if_neg hgt]
  refine ⟨?_, ?_, ?_⟩
  · intro e he
    rw [hsplit] at he
    have hmemS : e.startLine ∈ delimIndices d (authLines lt ft) := by
      rcases carve_mem _ _ he with ⟨i, hi, hs, _, _⟩
      rw [hs, List.getD_eq_getElem _ 0 hi]
      exact List.getElem_mem hi
    rw [carve_first_line _ _ hsorted hbound hnl e he]
    exact (mem_delimIndices.mp hmemS).2
  · intro e he
    rw [hsplit] at he
    have hmemS : e.startLine ∈ delimIndices d (authLines lt ft) := by
      rcases carve_mem _ _ he with ⟨i, hi, hs, _, _⟩
      rw [hs, List.getD_eq_getElem _ 0 hi]
      exact List.getElem_mem hi
    rcases carve_mem _ _ he with ⟨i, hi, _, _, ht⟩
    exact ⟨headD_le_of_mem hsorted hmemS, ht⟩
  · rw [hsplit]
    exact carve_reconstruct _ _ hne hsorted hbound

/-- Witness for C10 at a transcript with leading non-delimiter content. -/
theorem leading_content_dropped_witness :
    (∀ e ∈ splitIntoEncountersTextBased (("junk\nID: 1\nx\nID: 2\ny").toList)
        (("junk\nID: 1\nx\nID: 2\ny").toList) (("ID:").toList),
      containsSub (("ID:").toList) ((splitLines e.text).headD []) = true) ∧
    (∀ e ∈ splitIntoEncountersTextBased (("junk\nID: 1\nx\nID: 2\ny").toList)
        (("junk\nID: 1\nx\nID: 2\ny").toList) (("ID:").toList),
      (delimIndices (("ID:").toList)
        (authLines (("junk\nID: 1\nx\nID: 2\ny").toList)
          (("junk\nID: 1\nx\nID: 2\ny").toList))).headD 0 ≤ e.startLine ∧
      e.text = joinLines (((authLines (("junk\nID: 1\nx\nID: 2\ny").toList)
        (("junk\nID: 1\nx\nID: 2\ny").toList)).drop e.startLine).take
          (e.endLine - e.startLine))) ∧
    joinLines ((splitIntoEncountersTextBased (("junk\nID: 1\nx\nID: 2\ny").toList)
        (("junk\nID: 1\nx\nID: 2\ny").toList) (("ID:").toList)).map
          fun e => e.text) =
      joinLines ((authLines (("junk\nID: 1\nx\nID: 2\ny").toList)
          (("junk\nID: 1\nx\nID: 2\ny").toList)).drop
        ((delimIndices (("ID:").toList)
          (authLines (("junk\nID: 1\nx\nID: 2\ny").toList)
            (("junk\nID: 1\nx\nID: 2\ny").toList))).headD 0)) :=
  leading_content_dropped (("junk\nID: 1\nx\nID: 2\ny").toList)
    (("junk\nID: 1\nx\nID: 2\ny").toList) (("ID:").toList) (by decide)

/-! ## Field extraction (`extract_fields_from_text` in `rules_engine_rag.py`) -/

/-- `extract_fields_from_text`: empty text or empty mapping yields the empty
field dict; otherwise, for each `(field_name, key_pattern)` in mapping
order, the value comes from the first line containing the pattern, split
once on the pattern, remainder stripped; a stripped-empty or not-found
value is stored as `None` (`value if value else None`). -/
def extractFieldsFromText (text : List Char)
    (mappings : List (String × List Char)) :
    List (String × Option (List Char)) :=
  if text = [] ∨ mappings = [] then []
  else
    mappings.map fun p =>
      (p.1,
        match (splitLines text).find? (fun line => containsSub p.2 line) with
        | some line =>
          match splitOnceAfter p.2 line with
          | some rem => if pyStrip rem = [] then none else some (pyStrip rem)
          | none => none
        | none => none)

/-- Model of Python `dict.get(name)` on the produced field dict: `None`
both for an absent key and for a stored `None` value, as in Python. -/
def getField (fields : List (String × Option (List Char))) (n : String) :
    Option (List Char) :=
  match fields.find? (fun p => p.1 == n) with
  | some p => p.2
  | none => none

theorem containsSub_nil_of_ne {pat : List Char} (h : pat ≠ []) :
    containsSub pat [] = false := by
  cases pat with
  | nil => exact absurd rfl h
  | cons c cs => rfl

theorem splitOnceAfter_isSome {pat : List Char} (hp : pat ≠ []) :
    ∀ {l : List Char}, containsSub pat l = true →
      (splitOnceAfter pat l).isSome = true := by
  intro l
  induction l with
  | nil =>
    intro h
    rw [containsSub_nil_of_ne hp] at h
    cases h
  | cons c cs ih =>
    intro h
    simp only [containsSub, Bool.or_eq_true] at h
    simp only [splitOnceAfter]
    by_cases hpre : pat.isPrefixOf (c :: cs) = true
    · simp [hpre]
    · rcases h with h | h
      · exact absurd h hpre
      · simp only [hpre, if_false]
        exact ih h

theorem find_map_assoc {β γ : Type} (mappings : List (String × β))
    (g : β → γ) (n : String) (b : β) (hmem : (n, b) ∈ mappings)
    (hnd : (mappings.map Prod.fst).Nodup) :
    (mappings.map fun p => (p.1, g p.2)).find? (fun p => p.1 == n) =
      some (n, g b) := by
  induction mappings with
  | nil => cases hmem
  | cons a tl ih =>
    rcases a with ⟨a1, a2⟩
    simp only [List.map_cons, List.find?_cons]
    by_cases h : a1 = n
    · subst h
      simp only [beq_self_eq_true]
      rcases List.mem_cons.mp hmem with heq | htl
      · rw [(Prod.mk.injEq _ _ _ _).mp heq.symm |>.2]
      · exfalso
        have : a1 ∈ tl.map Prod.fst := List.mem_map.mpr ⟨(a1, b), htl, rfl⟩
        exact (List.nodup_cons.mp (by simpa using hnd)).1 this
    · have hb : ((a1, g a2).1 == n) = false := by
        simp [h]
      simp only [hb]
      have htl : (n, b) ∈ tl := by
        rcases List.mem_cons.mp hmem with heq | htl
        · exact absurd ((Prod.mk.injEq _ _ _ _).mp heq.symm).1 h
        · exact htl
      exact ih htl (List.nodup_cons.mp (by simpa using hnd)).2

/-- C7: per-field behaviour of the extractor.  For a mapping entry
`(name, pat)` with non-empty pattern (Python `str.split` raises on an
empty separator, which the engine never uses) and distinct mapping keys
(the mapping is a Python dict): if no line of the text contains the
pattern the retrieved value is null, and on the first line containing it
the value is the stripped remainder after the pattern — null, not the
empty string, when that remainder strips to nothing. -/
theorem extract_fields_first_match (text : List Char)
    (mappings : List (String × List Char)) (n : String) (pat : List Char)
    (hmem : (n, pat) ∈ mappings) (hpat : pat ≠ [])
    (hnd : (mappings.map Prod.fst).Nodup) :
    ((splitLines text).find? (fun line => containsSub pat line) = none →
      getField (extractFieldsFromText text mappings) n = none) ∧
    (∀ line,
      (splitLines text).find? (fun line => containsSub pat line) = some line →
      getField (extractFieldsFromText text mappings) n =
        (if pyStrip ((splitOnceAfter pat line).getD []) = [] then none
         else some (pyStrip ((splitOnceAfter pat line).getD [])))) := by
  by_cases htext : text = []
  · subst htext
    have hfind : (splitLines []).find? (fun line => containsSub pat line) = none := by
      simp [splitLines, containsSub_nil_of_ne hpat]
    constructor
    · intro _
      simp [extractFieldsFromText, getField]
    · intro line hline
      rw [hfind] at hline
      cases hline
  · have hmaps : mappings ≠ [] := by
      intro hcon
      rw [hcon] at hmem
      cases hmem
    have hunf : extractFieldsFromText text mappings =
        mappings.map fun p =>
          (p.1,
            match (splitLines text).find? (fun line => containsSub p.2 line) with
            | some line =>
              match splitOnceAfter p.2 line with
              | some rem => if pyStrip rem = [] then none else some (pyStrip rem)
              | none => none
            | none => none) := by
      unfold extractFieldsFromText
      rw [if_neg (by simp [htext, hmaps])]
    have hfound := find_map_assoc mappings
      (fun q =>
        match (splitLines text).find? (fun line => containsSub q line) with
        | some line =>
          match splitOnceAfter q line with
          | some rem => if pyStrip rem = [] then none else some (pyStrip rem)
          | none => none
        | none => none)
      n pat hmem hnd
    constructor
    · intro hnone
      rw [hunf]
      unfold getField
      rw [hfound]
      simp only [hnone]
    · intro line hline
      rw [hunf]
      unfold getField
      rw [hfound]
      simp only [hline]
      have hcs : containsSub pat line = true := by
        have := List.find?_some hline
        simpa using this
      rcases Option.isSome_iff_exists.mp (splitOnceAfter_isSome hpat hcs)
        with ⟨rem, hrem⟩
      simp [hrem]

/-- Witness for C7: a found field strips to its value, an absent field is
null. -/
theorem extract_fields_first_match_witness :
    getField (extractFieldsFromText (("Name: Bob\nAge: 42").toList)
      [(("consumer"), ("Name:").toList), (("zip"), ("Zip:").toList)])
      ("consumer") = some (("Bob").toList) ∧
    getField (extractFieldsFromText (("Name: Bob\nAge: 42").toList)
      [(("consumer"), ("Name:").toList), (("zip"), ("Zip:").toList)])
      ("zip") = none := by
  constructor
  · have h := (extract_fields_first_match (("Name: Bob\nAge: 42").toList)
      [(("consumer"), ("Name:").toList), (("zip"), ("Zip:").toList)]
      ("consumer") (("Name:").toList) (by decide) (by decide) (by decide)).2
      (("Name: Bob").toList) (by decide)
    rw [h]
    decide
  · exact (extract_fields_first_match (("Name: Bob\nAge: 42").toList)
      [(("consumer"), ("Name:").toList), (("zip"), ("Zip:").toList)]
      ("zip") (("Zip:").toList) (by decide) (by decide) (by decide)).1
      (by decide)

/-! ## Rule evaluation engine
(`validate_document` / `evaluate_rule` / `evaluate_llm_rule` in
`src/lambda/multi-org/rules_engine_rag.py`)

The model round trip of `evaluate_llm_rule` is abstracted into an outcome
oracle per rule: either the Bedrock call chain returns a verdict JSON with
`status` and `reasoning` (any strings — the engine does not re-validate the
enum), or some exception is raised inside `evaluate_llm_rule` (model call,
JSON handling), or an exception is raised in the surrounding `evaluate_rule`
body.  The source runs enabled rules on a thread pool and collects them with
`as_completed`, which only permutes the result list; the embedding evaluates
them in submission order.  No exception can escape: both handlers convert to
an `ERROR` result, which the totality of `evaluateRule` reflects. -/

/-- Outcome of the model round trip inside `evaluate_llm_rule`. -/
inductive LlmCallOutcome where
  | verdict (status reasoning : String)
  | exn (msg : String)
  deriving DecidableEq, Repr

/-- Outcome of one rule's `try` body in `evaluate_rule`. -/
inductive RuleEvalOutcome where
  | llm (o : LlmCallOutcome)
  | outerExn (msg : String)
  deriving DecidableEq, Repr

/-- A rule configuration; `ruleType` is `rule_config.get('type', 'llm')`
with the default already applied. -/
structure RuleConfig where
  id : String
  name : String
  category : String
  enabled : Bool
  ruleType : String
  deriving DecidableEq, Repr

structure RuleResult where
  ruleId : String
  ruleName : String
  category : String
  status : String
  message : String
  deriving DecidableEq, Repr

/-- `evaluate_llm_rule` (single-step variant): a verdict yields
`(status, "{status} - {reasoning}")`; its own `except` handler converts any
exception to `("ERROR", "LLM evaluation error: ...")`. -/
def evaluateLlmRule (o : LlmCallOutcome) : String × String :=
  match o with
  | .verdict st reasoning => (st, st ++ (" - ") ++ reasoning)
  | .exn m => (("ERROR"), ("LLM evaluation error: ") ++ m)

/-- `evaluate_rule`: dispatch on the rule type (`llm` is the only
supported kind), with the outer `except` handler converting any exception
to an `ERROR` result. -/
def evaluateRule (oracle : RuleConfig → RuleEvalOutcome) (rc : RuleConfig) :
    RuleResult :=
  match oracle rc with
  | .outerExn m =>
    { ruleId := rc.id, ruleName := rc.name, category := rc.category,
      status := ("ERROR"), message := ("Error evaluating rule: ") ++ m }
  | .llm o =>
    if rc.ruleType = ("llm") then
      { ruleId := rc.id, ruleName := rc.name, category := rc.category,
        status := (evaluateLlmRule o).1, message := (evaluateLlmRule o).2 }
    else
      { ruleId := rc.id, ruleName := rc.name, category := rc.category,
        status := ("SKIP"),
        message := ("Unsupported rule type: ") ++ rc.ruleType ++
          (". Only \"llm\" is supported.") }

/-- The rule loop of `validate_document`: filter to enabled rules and
evaluate each one. -/
def validateRules (oracle : RuleConfig → RuleEvalOutcome)
    (rules : List RuleConfig) : List RuleResult :=
  (rules.filter fun r => r.enabled).map (evaluateRule oracle)

structure RuleSummary where
  totalRules : Nat
  passed : Nat
  failed : Nat
  skipped : Nat
  deriving DecidableEq, Repr

/-- The summary block of `validate_document`. -/
def summarize (rs : List RuleResult) : RuleSummary :=
  { totalRules := rs.length,
    passed := rs.countP fun r => r.status == ("PASS"),
    failed := rs.countP fun r => r.status == ("FAIL"),
    skipped := rs.countP fun r => r.status == ("SKIP") }

/-- `validate_document`, restricted to its rule results and summary. -/
def validateDocument (oracle : RuleConfig → RuleEvalOutcome)
    (rules : List RuleConfig) : List RuleResult × RuleSummary :=
  (validateRules oracle rules, summarize (validateRules oracle rules))

def defaultRuleResult : RuleResult :=
  { ruleId := "", ruleName := "", category := "", status := "", message := "" }

def defaultRuleConfig : RuleConfig :=
  { id := "", name := "", category := "", enabled := true, ruleType := "" }

/-- C2: evaluation always yields exactly one result per enabled rule, the
i-th result being the evaluation of the i-th enabled rule, and any
exception inside a rule's evaluation (in the model call chain or elsewhere
in the rule body) becomes an `ERROR` result with a descriptive message for
that rule alone — it never propagates, `evaluateRule` being total. -/
theorem evaluate_isolates_rule_errors (oracle : RuleConfig → RuleEvalOutcome)
    (rules : List RuleConfig) :
    (validateRules oracle rules).length =
      (rules.filter fun r => r.enabled).length ∧
    (∀ i, i < (rules.filter fun r => r.enabled).length →
      (validateRules oracle rules).getD i defaultRuleResult =
        evaluateRule oracle
          ((rules.filter fun r => r.enabled).getD i defaultRuleConfig)) ∧
    (∀ rc : RuleConfig, ∀ m : String,
      (oracle rc = .llm (.exn m) → rc.ruleType = ("llm") →
        evaluateRule oracle rc =
          { ruleId := rc.id, ruleName := rc.name, category := rc.category,
            status := ("ERROR"),
            message := ("LLM evaluation error: ") ++ m }) ∧
      (oracle rc = .outerExn m →
        evaluateRule oracle rc =
          { ruleId := rc.id, ruleName := rc.name, category := rc.category,
            status := ("ERROR"),
            message := ("Error evaluating rule: ") ++ m })) := by
  refine ⟨by simp [validateRules], ?_, ?_⟩
  · intro i hi
    have hlen : i < (validateRules oracle rules).length := by
      simp [validateRules, hi]
    rw [List.getD_eq_getElem _ _ hlen, List.getD_eq_getElem _ _ hi]
    simp [validateRules]
  · intro rc m
    constructor
    · intro ho ht
      unfold evaluateRule
      rw [ho]
      simp [ht, evaluateLlmRule]
    · intro ho
      unfold evaluateRule
      rw [ho]

/-- Witness for C2: two enabled rules, the first forced to raise inside the
model call, still produce two results, the first an `ERROR`. -/
theorem evaluate_isolates_rule_errors_witness :
    (validateRules
        (fun rc => if rc.id = ("r1") then .llm (.exn ("boom"))
                   else .llm (.verdict ("PASS") ("ok")))
        [{ id := "r1", name := "Rule One", category := "c", enabled := true,
           ruleType := "llm" },
         { id := "r2", name := "Rule Two", category := "c", enabled := true,
           ruleType := "llm" }]).length = 2 ∧
    evaluateRule
        (fun rc => if rc.id = ("r1") then .llm (.exn ("boom"))
                   else .llm (.verdict ("PASS") ("ok")))
        { id := "r1", name := "Rule One", category := "c", enabled := true,
          ruleType := "llm" } =
      { ruleId := "r1", ruleName := "Rule One", category := "c",
        status := "ERROR", message := "LLM evaluation error: boom" } := by
  constructor
  · have h := (evaluate_isolates_rule_errors
      (fun rc => if rc.id = ("r1") then .llm (.exn ("boom"))
                 else .llm (.verdict ("PASS") ("ok")))
      [{ id := "r1", name := "Rule One", category := "c", enabled := true,
         ruleType := "llm" },
       { id := "r2", name := "Rule Two", category := "c", enabled := true,
         ruleType := "llm" }]).1
    rw [h]
    decide
  · have h := ((evaluate_isolates_rule_errors
      (fun rc => if rc.id = ("r1") then .llm (.exn ("boom"))
                 else .llm (.verdict ("PASS") ("ok")))
      [{ id := "r1", name := "Rule One", category := "c", enabled := true,
         ruleType := "llm" },
       { id := "r2", name := "Rule Two", category := "c", enabled := true,
         ruleType := "llm" }]).2.2
      { id := "r1", name := "Rule One", category := "c", enabled := true,
        ruleType := "llm" } ("boom")).1 (by decide) (by decide)
    rw [h]
    decide

/-- C6: the summary of `validate_document` counts `PASS`, `FAIL` and
`SKIP` results exactly, its total is the number of produced results (so a
result whose status is none of the three — in particular `ERROR` — is in
the total but in no sub-count), and an empty enabled-rule list yields an
empty result list and an all-zero summary. -/
theorem summary_counts_exact (oracle : RuleConfig → RuleEvalOutcome)
    (rules : List RuleConfig) :
    (validateDocument oracle rules).2.totalRules =
      (validateDocument oracle rules).1.length ∧
    (validateDocument oracle rules).2.passed =
      (validateDocument oracle rules).1.countP
        (fun r => r.status == ("PASS")) ∧
    (validateDocument oracle rules).2.failed =
      (validateDocument oracle rules).1.countP
        (fun r => r.status == ("FAIL")) ∧
    (validateDocument oracle rules).2.skipped =
      (validateDocument oracle rules).1.countP
        (fun r => r.status == ("SKIP")) ∧
    (∀ r ∈ (validateDocument oracle rules).1, r.status = ("ERROR") →
      ((r.status == ("PASS")) || (r.status == ("FAIL")) ||
        (r.status == ("SKIP"))) = false) ∧
    ((rules.filter fun r => r.enabled) = [] →
      (validateDocument oracle rules).1 = [] ∧
      (validateDocument oracle rules).2 =
        { totalRules := 0, passed := 0, failed := 0, skipped := 0 }) := by
  refine ⟨rfl, rfl, rfl, rfl, ?_, ?_⟩
  · intro r _ hst
    rw [hst]
    decide
  · intro hempty
    unfold validateDocument validateRules
    rw [hempty]
    exact ⟨rfl, rfl⟩

/-- Witness for C6: an empty rule list yields the empty result list and the
all-zero summary; an `ERROR` result counts in no sub-count. -/
theorem summary_counts_exact_witness :
    ((validateDocument (fun _ => .llm (.verdict ("PASS") ("ok"))) []).1 = [] ∧
      (validateDocument (fun _ => .llm (.verdict ("PASS") ("ok"))) []).2 =
        { totalRules := 0, passed := 0, failed := 0, skipped := 0 }) ∧
    ((("ERROR" : String) == ("PASS")) || (("ERROR" : String) == ("FAIL")) ||
      (("ERROR" : String) == ("SKIP"))) = false := by
  constructor
  · exact (summary_counts_exact (fun _ => .llm (.verdict ("PASS") ("ok")))
      []).2.2.2.2.2 (by decide)
  · have h := (summary_counts_exact
      (fun _ => .llm (.exn ("boom")))
      [{ id := "r1", name := "Rule One", category := "c", enabled := true,
         ruleType := "llm" }]).2.2.2.2.1
      { ruleId := "r1", ruleName := "Rule One", category := "c",
        status := "ERROR", message := "LLM evaluation error: boom" }
      (by decide) rfl
    exact h

/-! ## Model-invocation client (`invoke_claude_model` in
`rules_engine_rag.py`)

Each network attempt is abstracted to `ext : Nat → Option J`, giving the
JSON (if any) recovered from the response of the given attempt number; the
recursion on `retries` mirrors `return invoke_claude_model(..., retries=retries-1)`.
`invokeResult` is the returned value (`Except` for the raised
`ValueError("No JSON found in Claude response")`), and `invokeAttempts`
counts the attempts the same recursion performs. -/

def invokeResult {J : Type} (ext : Nat → Option J) (raiseOnError : Bool) :
    Nat → Nat → Except String (Option J)
  | attempt, 0 =>
    match ext attempt with
    | some j => .ok (some j)
    | none =>
      if raiseOnError then .error ("No JSON found in Claude response")
      else .ok none
  | attempt, r + 1 =>
    match ext attempt with
    | some j => .ok (some j)
    | none => invokeResult ext raiseOnError (attempt + 1) r

def invokeAttempts {J : Type} (ext : Nat → Option J) :
    Nat → Nat → Nat
  | attempt, 0 =>
    match ext attempt with
    | some _ => 1
    | none => 1
  | attempt, r + 1 =>
    match ext attempt with
    | some _ => 1
    | none => 1 + invokeAttempts ext (attempt + 1) r

/-- C5: the client performs at most `retries + 1` attempts (at most 2 with
the default of 1 retry); when every attempt up to the bound recovers no
JSON, it ends in the "no JSON found" condition — raising when
`raise_on_error` is set and returning `None` otherwise. -/
theorem invoke_retry_bounded {J : Type} (ext : Nat → Option J)
    (raiseOnError : Bool) :
    ∀ (retries attempt : Nat),
      invokeAttempts ext attempt retries ≤ retries + 1 ∧
      ((∀ t, attempt ≤ t → t ≤ attempt + retries → ext t = none) →
        invokeResult ext raiseOnError attempt retries =
          (if raiseOnError then .error ("No JSON found in Claude response")
           else .ok none)) ∧
      (retries = 1 → invokeAttempts ext attempt retries ≤ 2) := by
  intro retries
  induction retries with
  | zero =>
    intro attempt
    refine ⟨?_, ?_, ?_⟩
    · cases hx : ext attempt <;> simp [invokeAttempts, hx]
    · intro hall
      simp [invokeResult, hall attempt (Nat.le_refl _) (by omega)]
    · intro h
      cases h
  | succ r ih =>
    intro attempt
    refine ⟨?_, ?_, ?_⟩
    · cases hx : ext attempt with
      | some j => simp [invokeAttempts, hx]
      | none =>
        have := (ih (attempt + 1)).1
        simp only [invokeAttempts, hx]
        omega
    · intro hall
      have h0 : ext attempt = none := hall attempt (Nat.le_refl _) (by omega)
      simp only [invokeResult, h0]
      exact (ih (attempt + 1)).2.1 fun t h1 h2 => hall t (by omega) (by omega)
    · intro hr
      have hb := (ih (attempt + 1)).1
      cases hx : ext attempt with
      | some j => simp [invokeAttempts, hx]
      | none =>
        simp only [invokeAttempts, hx]
        omega

/-- Witness for C5: with both attempts failing and one retry, the raising
client raises "No JSON found in Claude response" after exactly 2 attempts. -/
theorem invoke_retry_bounded_witness :
    invokeAttempts (J := Nat) (fun _ => none) 0 1 ≤ 1 + 1 ∧
    invokeResult (J := Nat) (fun _ => none) true 0 1 =
      .error ("No JSON found in Claude response") ∧
    invokeAttempts (J := Nat) (fun _ => none) 0 1 ≤ 2 := by
  have h := invoke_retry_bounded (J := Nat) (fun _ => none) true 1 0
  refine ⟨h.1, ?_, h.2.2 rfl⟩
  have h2 := h.2.1 (fun t _ _ => rfl)
  simpa using h2

/-! ## Two-step rule evaluation
(`evaluate_llm_rule` / `_extract_rule_fields` / `_validate_rule` in the
`cdk.out` asset revision of `rules_engine_rag.py`)

Both steps call `invoke_claude_model` with `return_json_only=True`,
`raise_on_error=True`, `retries=1`.  The field-extraction step's response
is abstracted to `ext : Nat → Option J` (attempt number to recovered JSON)
and the verdict step's response to `ver : Nat → Option (String × String)`
(recovered `status`/`reasoning`).  The returned triple mirrors the source's
`(status, message, reasoning)`, and the final `Bool` records whether the
step-2 verdict call was performed. -/

def validateRuleStep (ver : Nat → Option (String × String)) :
    String × String × String :=
  match invokeResult ver true 0 1 with
  | .error e => (("ERROR"), ("LLM evaluation error: ") ++ e, ("LLM evaluation error: ") ++ e)
  | .ok none => (("ERROR"), ("No JSON found in Claude response"), (""))
  | .ok (some (st, reasoning)) => (st, st ++ (" - ") ++ reasoning, reasoning)

/-- `evaluate_llm_rule` (two-step asset revision): step 1 extracts fields
when `fields_to_extract` is non-empty; a `ValueError` raised by the
extraction call is caught by the function's own handler; step 2 produces
the verdict.  The last component records whether step 2 ran. -/
def evaluateLlmRuleTwoStep {J : Type} (fieldsToExtract : List String)
    (ext : Nat → Option J) (ver : Nat → Option (String × String)) :
    String × String × Bool :=
  match fieldsToExtract with
  | [] =>
    let r := validateRuleStep ver
    (r.1, r.2.1, true)
  | _ :: _ =>
    match invokeResult ext true 0 1 with
    | .error e => (("ERROR"), ("LLM evaluation error: ") ++ e, false)
    | .ok none =>
      (("ERROR"), ("No JSON found in Claude response (field extraction)"), false)
    | .ok (some _) =>
      let r := validateRuleStep ver
      (r.1, r.2.1, true)

/-- C3, counterexample.  A rule with one field to extract whose extraction
call recovers no JSON on both attempts: the result is `ERROR` and step 2 is
skipped, but the message is the raised-and-caught
`"LLM evaluation error: No JSON found in Claude response"`, not the
`"No JSON found in Claude response (field extraction)"` the claim states —
that branch is unreachable because the extraction call is made with
`raise_on_error=True` and can never return `None`. -/
theorem field_extraction_error_message_differs :
    evaluateLlmRuleTwoStep (J := Nat) [("f1")] (fun _ => none)
        (fun _ => some (("PASS"), ("ok"))) =
      (("ERROR"), ("LLM evaluation error: No JSON found in Claude response"),
        false) ∧
    (("LLM evaluation error: No JSON found in Claude response") : String) ≠
      ("No JSON found in Claude response (field extraction)") := by
  constructor
  · rfl
  · decide

/-- C3, amended: for any rule with non-empty `fields_to_extract` whose
field-extraction step recovers no JSON on either attempt, the result has
status `ERROR` with message
`"LLM evaluation error: No JSON found in Claude response"` and the verdict
call (step 2) is not performed. -/
theorem field_extraction_failure_skips_verdict {J : Type}
    (fieldsToExtract : List String) (ext : Nat → Option J)
    (ver : Nat → Option (String × String))
    (hne : fieldsToExtract ≠ []) (h0 : ext 0 = none) (h1 : ext 1 = none) :
    evaluateLlmRuleTwoStep fieldsToExtract ext ver =
      (("ERROR"), ("LLM evaluation error: No JSON found in Claude response"),
        false) := by
  have hinv : invokeResult ext true 0 1 =
      .error ("No JSON found in Claude response") := by
    simp [invokeResult, h0, h1]
  cases fieldsToExtract with
  | nil => exact absurd rfl hne
  | cons f fs =>
    unfold evaluateLlmRuleTwoStep
    rw [hinv]
    rfl

/-- Witness for the amended C3. -/
theorem field_extraction_failure_skips_verdict_witness :
    evaluateLlmRuleTwoStep (J := Nat) [("f1")] (fun _ => none)
        (fun _ => some (("PASS"), ("ok"))) =
      (("ERROR"), ("LLM evaluation error: No JSON found in Claude response"),
        false) :=
  field_extraction_failure_skips_verdict [("f1")] (fun _ => none)
    (fun _ => some (("PASS"), ("ok"))) (by decide) rfl rfl

/-! ## JSON recovery (`_extract_complete_json` /
`extract_json_from_claude_response` in `rules_engine_rag.py`) -/

/-- The brace-depth scanning loop of `_extract_complete_json`, started at
the first `\x7b` of the text: a backslash sets the escape flag, a
double quote (when not escaped) toggles the in-string flag, braces count
only outside strings, and the slice up to the closing brace at depth zero
is returned.  `acc` accumulates the consumed characters, which equals the
Python slice `text[start:i+1]`. -/
def scanJson : List Char → Int → Bool → Bool → List Char → Option (List Char)
  | [], _, _, _, _ => none
  | c :: cs, depth, inStr, esc, acc =>
    if esc then scanJson cs depth inStr false (acc ++ [c])
    else if c = '\\' then scanJson cs depth inStr true (acc ++ [c])
    else if c = '"' then scanJson cs depth (!inStr) false (acc ++ [c])
    else if inStr then scanJson cs depth inStr false (acc ++ [c])
    else if c = '\x7b' then scanJson cs (depth + 1) inStr false (acc ++ [c])
    else if c = '\x7d' then
      if depth - 1 = 0 then some (acc ++ [c])
      else scanJson cs (depth - 1) inStr false (acc ++ [c])
    else scanJson cs depth inStr false (acc ++ [c])

/-- `_extract_complete_json`: `None` when the text has no `\x7b`, else the
scan from the first `\x7b`. -/
def extractCompleteJson (text : List Char) : Option (List Char) :=
  match text.dropWhile (fun c => c ≠ '\x7b') with
  | [] => none
  | c :: cs => scanJson (c :: cs) 0 false false []

/-- The lazy part of the fenced regex
`` ```json\s*(\x7b[\s\S]*?\x7d)\s*``` ``: find the shortest body such that
the next character is `\x7d` followed by optional whitespace and three
backticks (the lazy quantifier extends the body only when the rest of the
pattern fails to match). -/
def findFencedClose : List Char → List Char → Option (List Char)
  | _, [] => none
  | acc, c :: cs =>
    if c = '\x7d' && (("```").toList.isPrefixOf (cs.dropWhile pyIsSpace)) then
      some acc
    else findFencedClose (acc ++ [c]) cs

/-- Model of `re.search` for the fenced pattern: try each start position
left to right; at a position starting with `` ```json ``, greedy
whitespace must be followed by `\x7b` (backtracking cannot help since
`\x7b` is not whitespace), then the lazy body search; the returned value
is capture group 1, the braced substring. -/
def matchFenced : List Char → Option (List Char)
  | [] => none
  | c :: cs =>
    if ("```json").toList.isPrefixOf (c :: cs) then
      match ((c :: cs).drop 7).dropWhile pyIsSpace with
      | '\x7b' :: tl =>
        match findFencedClose [] tl with
        | some body => some ('\x7b' :: (body ++ ['\x7d']))
        | none => matchFenced cs
      | _ => matchFenced cs
    else matchFenced cs

/-- JSON recovery of `extract_json_from_claude_response` at the text
level: the fenced `` ```json `` block is tried first, then the raw
brace-depth extraction.  (The joining of the response's content blocks and
the subsequent `json.loads` parse are outside this claim.) -/
def extractJsonStr (allText : List Char) : Option (List Char) :=
  match matchFenced allText with
  | some s => some s
  | none => extractCompleteJson allText

def exampleResponseText : List Char :=
  ("prefix \x7b\"a\": \x7b\"b\": \"\x7d\"\x7d, \"c\": 1\x7d suffix").toList

def exampleOuterObject : List Char :=
  ("\x7b\"a\": \x7b\"b\": \"\x7d\"\x7d, \"c\": 1\x7d").toList

theorem scanJson_decomp :
    ∀ (cs : List Char) (depth : Int) (inStr esc : Bool) (acc out : List Char),
      scanJson cs depth inStr esc acc = some out →
      ∃ mid post, cs = (mid ++ ['\x7d']) ++ post ∧
        out = acc ++ (mid ++ ['\x7d']) := by
  intro cs
  induction cs with
  | nil =>
    intro depth inStr esc acc out h
    cases h
  | cons c tl ih =>
    intro depth inStr esc acc out h
    simp only [scanJson] at h
    split_ifs at h with h1 h2 h3 h4 h5 h6 h7
    · rcases ih _ _ _ _ _ h with ⟨mid, post, ha, hb⟩
      exact ⟨c :: mid, post, by simp [ha], by simp [hb]⟩
    · rcases ih _ _ _ _ _ h with ⟨mid, post, ha, hb⟩
      exact ⟨c :: mid, post, by simp [ha], by simp [hb]⟩
    · rcases ih _ _ _ _ _ h with ⟨mid, post, ha, hb⟩
      exact ⟨c :: mid, post, by simp [ha], by simp [hb]⟩
    · rcases ih _ _ _ _ _ h with ⟨mid, post, ha, hb⟩
      exact ⟨c :: mid, post, by simp [ha], by simp [hb]⟩
    · rcases ih _ _ _ _ _ h with ⟨mid, post, ha, hb⟩
      exact ⟨c :: mid, post, by simp [ha], by simp [hb]⟩
    · refine ⟨[], tl, by simp [h6], ?_⟩
      rw [← Option.some.inj h, h6]
      simp
    · rcases ih _ _ _ _ _ h with ⟨mid, post, ha, hb⟩
      exact ⟨c :: mid, post, by simp [ha], by simp [hb]⟩
    · rcases ih _ _ _ _ _ h with ⟨mid, post, ha, hb⟩
      exact ⟨c :: mid, post, by simp [ha], by simp [hb]⟩

theorem dropWhile_head_not {α : Type} (p : α → Bool) :
    ∀ (l : List α) {c : α} {cs : List α}, l.dropWhile p = c :: cs →
      p c = false := by
  intro l
  induction l with
  | nil => intro c cs h; cases h
  | cons a tl ih =>
    intro c cs h
    rw [List.dropWhile_cons] at h
    by_cases ha : p a = true
    · rw [if_pos ha] at h
      exact ih h
    · rw [if_neg ha] at h
      rcases h with ⟨rfl, rfl⟩
      simpa using ha

theorem extractCompleteJson_decomp (t s : List Char)
    (h : extractCompleteJson t = some s) :
    ∃ pre post, t = pre ++ s ++ post ∧ (∀ c ∈ pre, c ≠ '\x7b') ∧
      ∃ mid, s = '\x7b' :: mid ++ ['\x7d'] := by
  unfold extractCompleteJson at h
  rcases hdrop : t.dropWhile (fun c => c ≠ '\x7b') with _ | ⟨c, cs⟩
  · rw [hdrop] at h
    cases h
  · rw [hdrop] at h
    have hc : c = '\x7b' := by
      have := dropWhile_head_not (fun c => c ≠ '\x7b') t hdrop
      simpa using this
    rcases scanJson_decomp _ _ _ _ _ _ h with ⟨mid, post, ha, hb⟩
    have hsplit : t = t.takeWhile (fun c => c ≠ '\x7b') ++ (c :: cs) := by
      conv_lhs => rw [← List.takeWhile_append_dropWhile
        (p := fun c => c ≠ '\x7b') (l := t)]
      rw [hdrop]
    refine ⟨t.takeWhile (fun c => c ≠ '\x7b'), post, ?_, ?_, ?_⟩
    · rw [hb]
      conv_lhs => rw [hsplit]
      rw [ha]
      simp
    · intro x hx
      have := List.mem_takeWhile_imp hx
      simpa using this
    · cases mid with
      | nil =>
        exfalso
        have : c = '\x7d' := by
          have := congrArg (fun l => l.headD ' ') ha
          simpa using this
        rw [hc] at this
        cases this
      | cons m ms =>
        have hm : m = c := by
          have := congrArg (fun l => l.headD ' ') ha
          simpa using this.symm
        refine ⟨ms, ?_⟩
        rw [hb, hm, hc]
        simp

/-- C4: JSON recovery tries the fenced `` ```json `` block first and falls
back to brace-depth scanning; whenever the scan succeeds it returns a
substring of the text that starts at the first `\x7b` (nothing before it
is a `\x7b`) and ends with the matching `\x7d`; and on the unfenced text
`prefix \x7b"a": \x7b"b": "\x7d"\x7d, "c": 1\x7d suffix` it returns the
full outer object, the `\x7d` inside the quoted string and the escape
handling notwithstanding. -/
theorem json_recovery_spec :
    (∀ t : List Char, extractJsonStr t =
      match matchFenced t with
      | some s => some s
      | none => extractCompleteJson t) ∧
    (∀ t s, extractCompleteJson t = some s →
      ∃ pre post, t = pre ++ s ++ post ∧ (∀ c ∈ pre, c ≠ '\x7b') ∧
        ∃ mid, s = '\x7b' :: mid ++ ['\x7d']) ∧
    extractJsonStr exampleResponseText = some exampleOuterObject := by
  refine ⟨fun t => rfl, extractCompleteJson_decomp, by decide⟩

/-- Witness for C4's decomposition property at the concrete example. -/
theorem json_recovery_spec_witness :
    ∃ pre post, exampleResponseText = pre ++ exampleOuterObject ++ post ∧
      (∀ c ∈ pre, c ≠ '\x7b') ∧
      ∃ mid, exampleOuterObject = '\x7b' :: mid ++ ['\x7d'] :=
  json_recovery_spec.2.1 exampleResponseText exampleOuterObject (by decide)

/-! ## Line normalization (`process_textract_response` in
`textract_result_handler_multi_org.py`)

A block carries the fields the LINE path reads: `BlockType`, `Text`,
`Page` (`.get` default 1 applied) and `Geometry.BoundingBox.Top`
(`.get` default 0 applied).  `Top` is a float used only in comparisons,
modelled as `ℚ`.  Python's `list.sort(key=lambda x: (x.page, x.top))` is
stable; a stable sort by a key equals sorting the index-annotated list by
the lexicographic order on (page, top, original index), which is how
`sortedLineEntries` is defined over `List.mergeSort`. -/

structure Block where
  blockType : String
  text : List Char
  page : Nat
  top : ℚ
  deriving DecidableEq, Repr

/-- The LINE collection loop: `if block['BlockType'] == 'LINE'`. -/
def lineEntries (blocks : List Block) : List Block :=
  blocks.filter fun b => b.blockType == ("LINE")

/-- Lexicographic order on (page, top, original index): the stable sort
by `(page, y_position)` of the source, made deterministic by the index
tiebreak. -/
def stableLe (a b : Nat × Block) : Bool :=
  decide (a.2.page < b.2.page) ||
    (a.2.page == b.2.page &&
      (decide (a.2.top < b.2.top) ||
        (a.2.top == b.2.top && decide (a.1 ≤ b.1))))

/-- `lines.sort(key=lambda x: (x['page'], x['y_position']))` on the
index-annotated LINE entries. -/
def sortedLineEntries (blocks : List Block) : List (Nat × Block) :=
  (lineEntries blocks).enum.mergeSort stableLe

/-- `lines_text = '\n'.join([line['text'] for line in lines])` after the
sort. -/
def lineTextOf (blocks : List Block) : List Char :=
  joinLines ((sortedLineEntries blocks).map fun p => p.2.text)

theorem stableLe_trans (a b c : Nat × Block) : stableLe a b → stableLe b c →
    stableLe a c := by
  simp only [stableLe, Bool.or_eq_true, Bool.and_eq_true, decide_eq_true_eq,
    beq_iff_eq]
  rintro (h1 | ⟨hp1, h1⟩) (h2 | ⟨hp2, h2⟩)
  · left; omega
  · left; omega
  · left; omega
  · refine Or.inr ⟨hp1.trans hp2, ?_⟩
    rcases h1 with h1 | ⟨ht1, hi1⟩ <;> rcases h2 with h2 | ⟨ht2, hi2⟩
    · exact Or.inl (h1.trans h2)
    · exact Or.inl (ht2 ▸ h1)
    · exact Or.inl (ht1 ▸ h2)
    · exact Or.inr ⟨ht1.trans ht2, hi1.trans hi2⟩

theorem stableLe_total (a b : Nat × Block) : stableLe a b || stableLe b a := by
  simp only [stableLe, Bool.or_eq_true, Bool.and_eq_true, decide_eq_true_eq,
    beq_iff_eq]
  rcases lt_trichotomy a.2.page b.2.page with h | h | h
  · exact Or.inl (Or.inl h)
  · rcases lt_trichotomy a.2.top b.2.top with h2 | h2 | h2
    · exact Or.inl (Or.inr ⟨h, Or.inl h2⟩)
    · rcases Nat.le_total a.1 b.1 with h3 | h3
      · exact Or.inl (Or.inr ⟨h, Or.inr ⟨h2, h3⟩⟩)
      · exact Or.inr (Or.inr ⟨h.symm, Or.inr ⟨h2.symm, h3⟩⟩)
    · exact Or.inr (Or.inr ⟨h.symm, Or.inl h2⟩)
  · exact Or.inr (Or.inl h)

/-- C8: `lines_text` is the newline-join of the sorted LINE entries; there
are exactly as many as there are LINE blocks (the sort is a permutation of
the index-annotated entries); the order is non-decreasing in
`(page, top)`; and entries tied on `(page, top)` keep strictly increasing
original indices — the stable order.  The output is a function of the
blocks, hence deterministic. -/
theorem line_text_sorted_stable (blocks : List Block) :
    lineTextOf blocks =
      joinLines ((sortedLineEntries blocks).map fun p => p.2.text) ∧
    (sortedLineEntries blocks).length = (lineEntries blocks).length ∧
    (sortedLineEntries blocks).Perm (lineEntries blocks).enum ∧
    (sortedLineEntries blocks).Pairwise (fun a b =>
      a.2.page < b.2.page ∨ (a.2.page = b.2.page ∧ a.2.top ≤ b.2.top)) ∧
    (sortedLineEntries blocks).Pairwise (fun a b =>
      a.2.page = b.2.page → a.2.top = b.2.top → a.1 < b.1) := by
  have hperm : (sortedLineEntries blocks).Perm (lineEntries blocks).enum :=
    List.mergeSort_perm _ _
  have hsorted : (sortedLineEntries blocks).Pairwise fun a b => stableLe a b :=
    List.sorted_mergeSort stableLe_trans stableLe_total _
  have hnodup : ((sortedLineEntries blocks).map Prod.fst).Nodup := by
    rw [(hperm.map Prod.fst).nodup_iff, List.enum_map_fst]
    exact List.nodup_range _
  have hne : (sortedLineEntries blocks).Pairwise fun a b => a.1 ≠ b.1 :=
    List.pairwise_map.mp hnodup
  refine ⟨rfl, hperm.length_eq.trans List.enum_length, hperm, ?_, ?_⟩
  · refine hsorted.imp ?_
    intro a b h
    simp only [stableLe, Bool.or_eq_true, Bool.and_eq_true, decide_eq_true_eq,
      beq_iff_eq] at h
    rcases h with h | ⟨hp, h⟩
    · exact Or.inl h
    · refine Or.inr ⟨hp, ?_⟩
      rcases h with h | ⟨ht, _⟩
      · exact le_of_lt h
      · exact le_of_eq ht
  · refine (hsorted.and hne).imp ?_
    intro a b ⟨hle, hab⟩ hp ht
    simp only [stableLe, Bool.or_eq_true, Bool.and_eq_true, decide_eq_true_eq,
      beq_iff_eq] at hle
    rcases hle with h | ⟨_, h⟩
    · omega
    · rcases h with h | ⟨_, hi⟩
      · rw [ht] at h
        exact absurd h (lt_irrefl _)
      · omega

/-- Blocks exercising the filter, the page/top sort and a tie on
`(page, top)`. -/
def demoBlocks : List Block :=
  [{ blockType := "LINE", text := ("b").toList, page := 1, top := 1 },
   { blockType := "PAGE", text := ("zz").toList, page := 1, top := 0 },
   { blockType := "LINE", text := ("a").toList, page := 1, top := 0 },
   { blockType := "LINE", text := ("c").toList, page := 1, top := 1 },
   { blockType := "LINE", text := ("d").toList, page := 2, top := 0 }]

/-- Witness for C8: the stability conclusion and the count at concrete
blocks containing a `(page, top)` tie. -/
theorem line_text_sorted_stable_witness :
    ((sortedLineEntries demoBlocks).Pairwise (fun a b =>
      a.2.page = b.2.page → a.2.top = b.2.top → a.1 < b.1)) ∧
    (sortedLineEntries demoBlocks).length = (lineEntries demoBlocks).length :=
  ⟨(line_text_sorted_stable demoBlocks).2.2.2.2,
   (line_text_sorted_stable demoBlocks).2.1⟩

/-! ## CSV report (`generate_csv_from_dynamodb` in `rules_engine_rag.py`)

An item is one stored validation record as the CSV pass reads it:
`service_id = field_values.get('document_id', 'N/A')` is taken as given,
and each rule entry carries `rule_name`/`status`/`message` with the
source's `.get` defaults (`'Unknown'`, `'N/A'`, `''`) already applied, an
absent message being the empty string.  `str.upper` is modelled on ASCII
letters, which is what statuses and their prefixes use. -/

structure CsvRuleEntry where
  ruleName : String
  status : String
  message : String
  deriving DecidableEq, Repr

structure CsvItem where
  serviceId : String
  rules : List CsvRuleEntry
  deriving DecidableEq, Repr

def pyUpperChar (c : Char) : Char :=
  if 'a' ≤ c ∧ c ≤ 'z' then Char.ofNat (c.toNat - 32) else c

/-- ASCII model of `str.upper()`. -/
def pyUpper (s : String) : String := String.mk (s.data.map pyUpperChar)

/-- Model of `str.startswith`: prefix test on the character sequence. -/
def pyStartsWith (s pre : String) : Bool := pre.data.isPrefixOf s.data

/-- The status-cell formatting of the second pass: `PASS` stays bare; a
non-empty message differing from the status is used verbatim when it
already starts with the status (case-insensitively), else prefixed with
`"{status}: "`; otherwise the bare status. -/
def cellFor (status message : String) : String :=
  if status = ("PASS") then ("PASS")
  else if message ≠ ("") ∧ message ≠ status then
    if pyStartsWith (pyUpper message) (pyUpper status) then message
    else status ++ (": ") ++ message
  else status

/-- Python dict assignment `d[k] = v`: overwrite in place, else append. -/
def upsert (m : List (String × String)) (k v : String) :
    List (String × String) :=
  if m.any (fun p => p.1 == k) then
    m.map (fun p => if p.1 == k then (k, v) else p)
  else m ++ [(k, v)]

/-- The `rule_statuses` dict built for one item. -/
def ruleStatuses (rs : List CsvRuleEntry) : List (String × String) :=
  rs.foldl (fun m r => upsert m r.ruleName (cellFor r.status r.message)) []

/-- Python `dict.get(k, d)`. -/
def lookupD (m : List (String × String)) (k d : String) : String :=
  match m.find? (fun p => p.1 == k) with
  | some p => p.2
  | none => d

/-- First pass: the set of rule names observed across all items
(`set()` + `sorted()` below). -/
def allRuleNames (items : List CsvItem) : List String :=
  ((items.map fun it => it.rules.map fun r => r.ruleName).flatten).dedup

def sortedRuleNames (items : List CsvItem) : List String :=
  (allRuleNames items).mergeSort fun a b => decide (a ≤ b)

def csvHeader (items : List CsvItem) : List String :=
  ("Service ID") :: sortedRuleNames items

/-- One data row: the service id, then this item's cell for each rule
column, in header order. -/
def csvRow (items : List CsvItem) (it : CsvItem) : List String :=
  it.serviceId :: (sortedRuleNames items).map
    fun n => lookupD (ruleStatuses it.rules) n ("N/A")

theorem stringLeB_trans (a b c : String) : decide (a ≤ b) → decide (b ≤ c) →
    decide (a ≤ c) := by
  intro h1 h2
  exact decide_eq_true (le_trans (of_decide_eq_true h1) (of_decide_eq_true h2))

theorem stringLeB_total (a b : String) : decide (a ≤ b) || decide (b ≤ a) := by
  rcases le_total a b with h | h
  · simp [h]
  · simp [h]

theorem mem_upsert_key (m : List (String × String)) (k v : String) :
    ∀ p ∈ upsert m k v, p.1 ∈ m.map Prod.fst ∨ p.1 = k := by
  intro p hp
  unfold upsert at hp
  by_cases h : m.any (fun p => p.1 == k) = true
  · rw [if_pos h] at hp
    rcases List.mem_map.mp hp with ⟨q, hq, hqe⟩
    by_cases hk : q.1 == k
    · right
      rw [if_pos hk] at hqe
      rw [← hqe]
    · left
      rw [if_neg hk] at hqe
      rw [← hqe]
      exact List.mem_map.mpr ⟨q, hq, rfl⟩
  · rw [if_neg h] at hp
    rcases List.mem_append.mp hp with h1 | h1
    · exact Or.inl (List.mem_map.mpr ⟨p, h1, rfl⟩)
    · right
      rcases List.mem_singleton.mp h1 with rfl
      rfl

theorem ruleStatuses_key (rs : List CsvRuleEntry) :
    ∀ p ∈ ruleStatuses rs, ∃ r ∈ rs, r.ruleName = p.1 := by
  have aux : ∀ (rl : List CsvRuleEntry) (acc : List (String × String)),
      ∀ p ∈ rl.foldl
        (fun m r => upsert m r.ruleName (cellFor r.status r.message)) acc,
      p.1 ∈ acc.map Prod.fst ∨ ∃ r ∈ rl, r.ruleName = p.1 := by
    intro rl
    induction rl with
    | nil =>
      intro acc p hp
      exact Or.inl (List.mem_map.mpr ⟨p, hp, rfl⟩)
    | cons r tl ih =>
      intro acc p hp
      rw [List.foldl_cons] at hp
      rcases ih _ p hp with h | ⟨r', hr', he⟩
      · rcases List.mem_map.mp h with ⟨q, hq, hqe⟩
        rcases mem_upsert_key acc r.ruleName _ q hq with h2 | h2
        · exact Or.inl (hqe ▸ h2)
        · exact Or.inr ⟨r, by simp, by rw [← hqe, h2]⟩
      · exact Or.inr ⟨r', List.mem_cons_of_mem r hr', he⟩
  intro p hp
  rcases aux rs [] p hp with h | h
  · simp at h
  · exact h

/-- C9: the rule columns are the lexicographically sorted, duplicate-free
set of the rule names observed across the records; each data row lists the
service id and then, per column, the formatted status cell, `"N/A"` when
the record has no entry for that rule; and the cell formatting is `PASS`
bare, a non-empty message differing from the status verbatim when it
starts with the status case-insensitively and `"{status}: {message}"`
otherwise, and the bare status without a message. -/
theorem csv_report_spec :
    (∀ items : List CsvItem, (sortedRuleNames items).Pairwise (· ≤ ·)) ∧
    (∀ items : List CsvItem, (sortedRuleNames items).Nodup) ∧
    (∀ items : List CsvItem, ∀ n : String,
      n ∈ sortedRuleNames items ↔
        ∃ it ∈ items, ∃ r ∈ it.rules, r.ruleName = n) ∧
    (∀ items : List CsvItem, csvHeader items =
      ("Service ID") :: sortedRuleNames items) ∧
    (∀ items : List CsvItem, ∀ it : CsvItem, csvRow items it =
      it.serviceId :: (sortedRuleNames items).map
        (fun n => lookupD (ruleStatuses it.rules) n ("N/A"))) ∧
    (∀ it : CsvItem, ∀ n : String, (∀ r ∈ it.rules, r.ruleName ≠ n) →
      lookupD (ruleStatuses it.rules) n ("N/A") = ("N/A")) ∧
    (∀ status message : String,
      (status = ("PASS") → cellFor status message = ("PASS")) ∧
      (status ≠ ("PASS") → message ≠ ("") → message ≠ status →
        pyStartsWith (pyUpper message) (pyUpper status) = true →
        cellFor status message = message) ∧
      (status ≠ ("PASS") → message ≠ ("") → message ≠ status →
        pyStartsWith (pyUpper message) (pyUpper status) = false →
        cellFor status message = status ++ (": ") ++ message) ∧
      (status ≠ ("PASS") → message = ("") ∨ message = status →
        cellFor status message = status)) := by
  refine ⟨?_, ?_, ?_, fun items => rfl, fun items it => rfl, ?_, ?_⟩
  · intro items
    have h := List.sorted_mergeSort
      stringLeB_trans stringLeB_total (allRuleNames items)
    exact h.imp fun hab => of_decide_eq_true hab
  · intro items
    have hperm : (sortedRuleNames items).Perm (allRuleNames items) :=
      List.mergeSort_perm _ _
    exact hperm.nodup_iff.mpr (List.nodup_dedup _)
  · intro items n
    unfold sortedRuleNames allRuleNames
    rw [List.mem_mergeSort, List.mem_dedup]
    simp only [List.mem_flatten, List.mem_map]
    constructor
    · rintro ⟨l, ⟨it, hit, rfl⟩, hn⟩
      rcases List.mem_map.mp hn with ⟨r, hr, he⟩
      exact ⟨it, hit, r, hr, he⟩
    · rintro ⟨it, hit, r, hr, he⟩
      exact ⟨it.rules.map (fun r => r.ruleName), ⟨it, hit, rfl⟩,
        List.mem_map.mpr ⟨r, hr, he⟩⟩
  · intro it n hall
    unfold lookupD
    have hnone : (ruleStatuses it.rules).find? (fun p => p.1 == n) = none := by
      rw [List.find?_eq_none]
      intro p hp
      rcases ruleStatuses_key it.rules p hp with ⟨r, hr, he⟩
      simp only [beq_iff_eq]
      rw [← he]
      exact hall r hr
    rw [hnone]
  · intro status message
    refine ⟨?_, ?_, ?_, ?_⟩
    · intro h
      simp [cellFor, h]
    · intro h1 h2 h3 h4
      simp [cellFor, h1, h2, h3, h4]
    · intro h1 h2 h3 h4
      simp [cellFor, h1, h2, h3, h4]
    · intro h1 h2
      rcases h2 with h2 | h2
      · simp [cellFor, h1, h2]
      · simp [cellFor, h1, h2]

def demoItems : List CsvItem :=
  [{ serviceId := "S1",
     rules := [{ ruleName := "A", status := "PASS", message := "" },
               { ruleName := "B", status := "FAIL", message := "bad" }] },
   { serviceId := "S2",
     rules := [{ ruleName := "A", status := "PASS", message := "" },
               { ruleName := "C", status := "SKIP", message := "" }] }]

/-- Witness for C9 at the records with rule sets `A,B` and `A,C`: the
record lacking rule `B` shows `N/A` there, and the formatting cases
evaluate as stated. -/
theorem csv_report_spec_witness :
    lookupD (ruleStatuses
        [{ ruleName := ("A"), status := ("PASS"), message := ("") },
         { ruleName := ("C"), status := ("SKIP"), message := ("") }])
      ("B") ("N/A") = ("N/A") ∧
    cellFor ("FAIL") ("bad") = ("FAIL: bad") ∧
    cellFor ("PASS") ("anything") = ("PASS") ∧
    cellFor ("FAIL") ("FAILED the check") = ("FAILED the check") := by
  refine ⟨?_, ?_, ?_, ?_⟩
  · exact csv_report_spec.2.2.2.2.2.1
      { serviceId := ("S2"),
        rules := [{ ruleName := ("A"), status := ("PASS"), message := ("") },
                  { ruleName := ("C"), status := ("SKIP"), message := ("") }] }
      ("B") (by decide)
  · exact (csv_report_spec.2.2.2.2.2.2 ("FAIL") ("bad")).2.2.1
      (by decide) (by decide) (by decide) (by decide)
  · exact (csv_report_spec.2.2.2.2.2.2 ("PASS") ("anything")).1 rfl
  · exact (csv_report_spec.2.2.2.2.2.2 ("FAIL") ("FAILED the check")).2.1
      (by decide) (by decide) (by decide) (by decide)

end PenguinHealth
